import Mathlib

/-!
# Verification of the audit blockchain (`backend/blockchain/ledger.py`)

A shallow embedding of the ledger module: `HealthDataBlock` (content hash,
proof-of-work mining), the `HealthBlockchain` store operations (genesis
creation, transaction appension, whole-chain integrity verification), and the
`HealthDataAuditor` payload builder for AI-interaction events.

Modelling conventions:
* The MongoDB collection is a `List HealthDataBlock` in insertion order;
  `insert_one` is `++ [b]`, `find().sort("index", 1)` is a stable insertion
  sort on the `index` field, `find_one(sort=[("index", -1)])` picks the
  document of maximal index (earliest on ties, matching a stable descending
  sort).
* `datetime` values are identified with their ISO-8601 rendering, so a block's
  `timestamp` is the `String` that `isoformat()` would produce.
* `hashlib.sha256(...).hexdigest()` is an abstract `sha256 : String → String`
  parameter; nothing below depends on the concrete digest, and collision
  freedom enters only as an explicit hypothesis where a claim needs it.
* Python `dict` payloads are flat key/value lists (`Payload`); `json.dumps`
  with `sort_keys=True` is `dumps`, which fails (`none`, modelling the raised
  `TypeError`) exactly on values that are not JSON serialisable, represented
  by the `JVal.objId` constructor (a `bson.ObjectId`).
* The unbounded `while` loop of `mine_block` is given explicit fuel (one unit
  per iteration); `none` means the fuel ran out or serialisation failed.
* The `try`/`except` of `verify_chain_integrity` is modelled by running the
  body in `Except Unit Bool` (`.error ()` = an exception was raised) and
  mapping any error to `false`; the load from storage is an
  `Except Unit (List HealthDataBlock)` input so that a storage failure can be
  expressed.
-/

namespace HealthLedger

/-- A Python float, carried opaquely by its decimal literal (no claim inspects
float values; only their JSON type matters). -/
structure PyFloat where
  lit : String
deriving DecidableEq, Repr

/-- A JSON-able Python value as it occurs in ledger payloads. `objId` stands
for a `bson.ObjectId`, which `json.dumps` rejects with a `TypeError`. -/
inductive JVal where
  | str (s : String)
  | num (n : Int)
  | flt (f : PyFloat)
  | null
  | objId (oid : String)
deriving DecidableEq, Repr

/-- A transaction payload: a Python dict with string keys. -/
abbrev Payload := List (String × JVal)

/-- Lower-case hexadecimal digit. -/
def hexDigit (n : Nat) : Char :=
  if n < 10 then Char.ofNat (48 + n) else Char.ofNat (87 + n)

/-- Four-digit hexadecimal rendering, as in a JSON `\uXXXX` escape. -/
def hex4 (n : Nat) : String :=
  String.mk [hexDigit (n / 4096 % 16), hexDigit (n / 256 % 16),
    hexDigit (n / 16 % 16), hexDigit (n % 16)]

/-- JSON escaping of one character, following `json.dumps` defaults
(`ensure_ascii=True`): short escapes for the usual control characters,
`\uXXXX` for other controls and for non-ASCII, surrogate pairs beyond the
basic multilingual plane. -/
def escChar (c : Char) : String :=
  if c = '"' then "\\\""
  else if c = '\\' then "\\\\"
  else if c = '\n' then "\\n"
  else if c = '\t' then "\\t"
  else if c = '\r' then "\\r"
  else if c.toNat = 8 then "\\b"
  else if c.toNat = 12 then "\\f"
  else if c.toNat < 32 then "\\u" ++ hex4 c.toNat
  else if c.toNat < 128 then String.singleton c
  else if c.toNat < 65536 then "\\u" ++ hex4 c.toNat
  else "\\u" ++ hex4 (55296 + (c.toNat - 65536) / 1024)
    ++ "\\u" ++ hex4 (56320 + (c.toNat - 65536) % 1024)

/-- A JSON string literal. -/
def jstr (s : String) : String :=
  "\"" ++ String.join (s.toList.map escChar) ++ "\""

/-- Serialisation of one JSON value; `none` models the `TypeError` that
`json.dumps` raises on a non-serialisable object. -/
def dumpsVal : JVal → Option String
  | .str s => some (jstr s)
  | .num n => some (toString n)
  | .flt f => some f.lit
  | .null => some "null"
  | .objId _ => none

/-- Lexicographic code-point comparison of character lists — the order
Python uses on `str` keys. -/
def lexLt : List Char → List Char → Bool
  | [], [] => false
  | [], _ :: _ => true
  | _ :: _, [] => false
  | a :: as, b :: bs =>
    if a.toNat < b.toNat then true
    else if a.toNat = b.toNat then lexLt as bs
    else false

/-- String comparison by code points (Python's `<` on `str`). -/
def strLt (a b : String) : Bool := lexLt a.toList b.toList

/-- Insert one entry into a key-sorted entry list (ascending string keys). -/
def insertEntry (e : String × JVal) : Payload → Payload
  | [] => [e]
  | f :: t => if strLt f.1 e.1 then f :: insertEntry e t else e :: f :: t

/-- Sort a dict's entries by key, as `json.dumps(..., sort_keys=True)` does. -/
def sortEntries : Payload → Payload
  | [] => []
  | e :: t => insertEntry e (sortEntries t)

/-- Render each entry as a `"key": value` fragment, failing if any value is
not serialisable. -/
def entryStrings : Payload → Option (List String)
  | [] => some []
  | e :: t => do
    let v ← dumpsVal e.2
    let r ← entryStrings t
    pure ((jstr e.1 ++ ": " ++ v) :: r)

/-- `json.dumps(payload, sort_keys=True)` on a flat dict. -/
def dumps (p : Payload) : Option String :=
  (entryStrings (sortEntries p)).map fun l =>
    "\x7b" ++ String.intercalate ", " l ++ "\x7d"

/-- One block of the health-data blockchain. The stored document
(`to_dict`) has exactly the same six fields, so blocks and stored documents
share this representation. -/
structure HealthDataBlock where
  index : Nat
  timestamp : String
  data : Payload
  previous_hash : String
  nonce : Nat
  hash : String
deriving DecidableEq, Repr

/-- The serialisation hashed by `HealthDataBlock.calculate_hash`:
`json.dumps({"index": ..., "timestamp": ..., "data": ..., "previous_hash":
..., "nonce": ...}, sort_keys=True)`, whose keys appear in sorted order
`data < index < nonce < previous_hash < timestamp`. -/
def block_string (i : Nat) (ts : String) (data : Payload) (prev : String)
    (nonce : Nat) : Option String :=
  (dumps data).map fun ds =>
    "\x7b\"data\": " ++ ds
      ++ ", \"index\": " ++ toString i
      ++ ", \"nonce\": " ++ toString nonce
      ++ ", \"previous_hash\": " ++ jstr prev
      ++ ", \"timestamp\": " ++ jstr ts ++ "\x7d"

variable (sha256 : String → String)

/-- `HealthDataBlock.calculate_hash`: the digest of the canonical
serialisation; `none` when the payload cannot be serialised (the raised
`TypeError`). -/
def calculate_hash (i : Nat) (ts : String) (data : Payload) (prev : String)
    (nonce : Nat) : Option String :=
  (block_string i ts data prev nonce).map sha256

/-- `HealthDataBlock.__init__`: nonce starts at `0` and the hash field is
computed from the fields at construction. -/
def mkHealthDataBlock (i : Nat) (ts : String) (data : Payload)
    (prev : String) : Option HealthDataBlock :=
  (calculate_hash sha256 i ts data prev 0).map fun h =>
    { index := i, timestamp := ts, data := data, previous_hash := prev,
      nonce := 0, hash := h }

/-- `hash[:difficulty] == "0" * difficulty`, the mining target test. -/
def targetOk (h : String) (difficulty : Nat) : Bool :=
  h.toList.take difficulty == List.replicate difficulty '0'

/-- `HealthDataBlock.mine_block`: the `while` loop, one fuel unit per
iteration. `none` means the fuel ran out before the target was met, or the
payload stopped being serialisable (impossible once it hashed once). -/
def mine_block (difficulty : Nat) : Nat → HealthDataBlock → Option HealthDataBlock
  | 0, b => if targetOk b.hash difficulty then some b else none
  | fuel + 1, b =>
    if targetOk b.hash difficulty then some b
    else
      match calculate_hash sha256 b.index b.timestamp b.data b.previous_hash
          (b.nonce + 1) with
      | none => none
      | some h =>
        mine_block difficulty fuel { b with nonce := b.nonce + 1, hash := h }

/-- The genesis payload built by `create_genesis_block` (note the tag key is
`"type"`, not `"action_type"`). -/
def genesis_data : Payload :=
  [("type", .str "genesis"),
   ("message", .str "Smart Health Consulting Services - Genesis Block"),
   ("created_by", .str "system")]

/-- `HealthBlockchain.create_genesis_block`: block 0 with sentinel previous
hash `"0"`; `gts` is the `datetime.utcnow()` instant. -/
def create_genesis_block (gts : String) : Option HealthDataBlock :=
  mkHealthDataBlock sha256 0 gts genesis_data "0"

/-- `HealthBlockchain.initialize_blockchain`: insert a genesis block iff the
collection is empty. The `none` branch is unreachable (the genesis payload
always serialises, see `create_genesis_block_some`). -/
def initialize_blockchain (gts : String) (store : List HealthDataBlock) :
    List HealthDataBlock :=
  if store.length = 0 then
    match create_genesis_block sha256 gts with
    | some b => store ++ [b]
    | none => store
  else store

/-- `HealthBlockchain.get_latest_block`: the stored document of maximal
`index` (`find_one` with a descending index sort), earliest on ties. -/
def get_latest_block : List HealthDataBlock → Option HealthDataBlock
  | [] => none
  | d :: t =>
    match get_latest_block t with
    | none => some d
    | some m => some (if d.index < m.index then m else d)

/-- `HealthBlockchain.difficulty`, fixed at construction. -/
def difficulty : Nat := 2

/-- `HealthBlockchain.add_transaction`: read the latest block (initialising
the chain first when the store is empty), build the successor block, mine it
at the configured difficulty, persist it, return its hash. `gts` and `now`
are the two `datetime.utcnow()` instants (genesis timestamp if needed, new
block timestamp); `fuel` bounds the mining loop. -/
def add_transaction (fuel : Nat) (gts now : String) (txd : Payload)
    (store : List HealthDataBlock) :
    Option (String × List HealthDataBlock) :=
  let store1 :=
    match get_latest_block store with
    | some _ => store
    | none => initialize_blockchain sha256 gts store
  match get_latest_block store1 with
  | none => none
  | some latest =>
    match mkHealthDataBlock sha256 (latest.index + 1) now txd latest.hash with
    | none => none
    | some b =>
      match mine_block sha256 difficulty fuel b with
      | none => none
      | some b2 => some (b2.hash, store1 ++ [b2])

/-- Insert into an index-sorted document list, keeping the incoming document
before documents of equal index (stability of the storage sort). -/
def sortIns (d : HealthDataBlock) :
    List HealthDataBlock → List HealthDataBlock
  | [] => [d]
  | e :: t => if d.index ≤ e.index then d :: e :: t else e :: sortIns d t

/-- `find({}).sort("index", 1)`: a stable ascending sort on `index`. -/
def sortByIndex : List HealthDataBlock → List HealthDataBlock
  | [] => []
  | d :: t => sortIns d (sortByIndex t)

/-- The hash recomputation of the verification loop: rebuild a block from a
stored document's fields (stored nonce included) and hash it. -/
def recompute_hash (b : HealthDataBlock) : Option String :=
  calculate_hash sha256 b.index b.timestamp b.data b.previous_hash b.nonce

/-- The `for i in range(1, len(blocks))` body of `verify_chain_integrity`,
run over the index-sorted documents: recompute each non-initial block's hash
and compare to the stored hash, then compare its `previous_hash` to the
predecessor's stored hash, returning at the first mismatch. `.error ()` is a
raised exception (non-serialisable stored payload). -/
def verifyLoop : List HealthDataBlock → Except Unit Bool
  | [] => .ok true
  | [_] => .ok true
  | prev :: curr :: rest =>
    match recompute_hash sha256 curr with
    | none => .error ()
    | some h =>
      if h = curr.hash then
        if curr.previous_hash = prev.hash then verifyLoop (curr :: rest)
        else .ok false
      else .ok false

/-- `HealthBlockchain.verify_chain_integrity`: load all documents sorted by
index and run the verification loop; any exception — a failed load or a
failure inside the loop — is caught and becomes `false`. -/
def verify_chain_integrity (load : Except Unit (List HealthDataBlock)) : Bool :=
  match load with
  | .error _ => false
  | .ok docs =>
    match verifyLoop sha256 (sortByIndex docs) with
    | .error _ => false
    | .ok b => b

/-- `HealthDataAuditor.log_ai_interaction`'s transaction payload: the
free-text input and output are stored only as digests; `pts` is the payload's
own `datetime.utcnow().isoformat()` timestamp. -/
def log_ai_interaction_payload (patient_id interaction_type ai_model
    input_data output_data : String) (confidence_score : Option PyFloat)
    (pts : String) : Payload :=
  [("action_type", .str "ai_interaction"),
   ("patient_id", .str patient_id),
   ("interaction_type", .str interaction_type),
   ("ai_model", .str ai_model),
   ("input_data_hash", .str (sha256 input_data)),
   ("output_data_hash", .str (sha256 output_data)),
   ("confidence_score",
     match confidence_score with
     | some f => .flt f
     | none => .null),
   ("timestamp", .str pts)]

/-- `HealthDataAuditor.log_ai_interaction`: build the payload and submit it
through `add_transaction`. -/
def log_ai_interaction (fuel : Nat) (gts now : String)
    (patient_id interaction_type ai_model input_data output_data : String)
    (confidence_score : Option PyFloat) (pts : String)
    (store : List HealthDataBlock) :
    Option (String × List HealthDataBlock) :=
  add_transaction sha256 fuel gts now
    (log_ai_interaction_payload sha256 patient_id interaction_type ai_model
      input_data output_data confidence_score pts) store

/-- Chains reachable from an empty store by genesis initialisation followed
by successful `add_transaction` appends. -/
inductive Built : List HealthDataBlock → Prop
  | start (gts : String) : Built (initialize_blockchain sha256 gts [])
  | step {store store2 : List HealthDataBlock} {h : String} (fuel : Nat)
      (gts now : String) (txd : Payload) : Built store →
      add_transaction sha256 fuel gts now txd store = some (h, store2) →
      Built store2

/-- Adjacent-pair check that a document list is ascending on `index`. -/
def sortedByIndex : List HealthDataBlock → Bool
  | [] => true
  | [_] => true
  | a :: b :: t => a.index ≤ b.index && sortedByIndex (b :: t)

/-! ## Concrete instances used by witnesses and counterexamples -/

end HealthLedger

namespace HealthLedger

/-- A concrete stand-in for the digest function in witnesses: injective, and
every output meets the default difficulty immediately. -/
def testHash (s : String) : String := "00" ++ s

/-- Default document for `List.getD`. -/
def dummyBlock : HealthDataBlock :=
  { index := 0, timestamp := "", data := [], previous_hash := "",
    nonce := 0, hash := "" }

/-- A concrete transaction payload. -/
def pay1 : Payload :=
  [("action_type", .str "data_access"), ("patient_id", .str "P1")]

/-- Its `json.dumps(..., sort_keys=True)` rendering. -/
def pay1dump : String :=
  "\x7b\"action_type\": \"data_access\", \"patient_id\": \"P1\"\x7d"

/-- The store after initialising an empty collection at instant `"T0"`. -/
def cstore1 : List HealthDataBlock := initialize_blockchain testHash "T0" []

/-- One append on top of the genesis store. -/
def cstep : Option (String × List HealthDataBlock) :=
  add_transaction testHash 0 "T0" "T1" pay1 cstore1

/-- The hash returned by that append. -/
def chash1 : String :=
  match cstep with
  | some p => p.1
  | none => ""

/-- The two-block store produced by that append. -/
def cstore2 : List HealthDataBlock :=
  match cstep with
  | some p => p.2
  | none => []

/-- The stored genesis document of `cstore2`. -/
def g0 : HealthDataBlock := cstore2.getD 0 dummyBlock

/-- The stored second document of `cstore2`. -/
def b1 : HealthDataBlock := cstore2.getD 1 dummyBlock

/-- The genesis document with its payload tampered but its stored hash kept. -/
def g0bad : HealthDataBlock := { g0 with data := [("type", .str "not-genesis")] }

/-- `cstore2` with the genesis payload tampered in place. -/
def cstore2bad : List HealthDataBlock := cstore2.set 0 g0bad

/-- The second document with its payload tampered but its stored hash kept. -/
def b1bad : HealthDataBlock := { b1 with data := [("patient_id", .str "P9")] }

/-- The genesis document with its nonce tampered but its stored hash kept. -/
def g0c : HealthDataBlock := { g0 with nonce := 5 }

/-- A stored document whose payload cannot be re-serialised (it holds a
`bson.ObjectId`), so recomputing its hash raises. -/
def badDoc : HealthDataBlock :=
  { index := 1, timestamp := "T1", data := [("oid", .objId "abc")],
    previous_hash := g0.hash, nonce := 0, hash := "whatever" }

end HealthLedger

namespace HealthLedger

/-! ## Helper lemmas -/

variable (sha256 : String → String)

/-- The genesis payload always serialises, so `create_genesis_block` always
returns a block, with the documented field values. -/
lemma create_genesis_block_reduce (gts : String) :
    ∃ g : HealthDataBlock, create_genesis_block sha256 gts = some g ∧
      g.index = 0 ∧ g.timestamp = gts ∧ g.data = genesis_data ∧
      g.previous_hash = "0" ∧ g.nonce = 0 :=
  ⟨_, rfl, rfl, rfl, rfl, rfl, rfl⟩

/-- Initialising an empty store persists exactly the genesis block. -/
lemma init_blockchain_empty (gts : String) :
    ∃ g : HealthDataBlock, initialize_blockchain sha256 gts [] = [g] ∧
      g.index = 0 ∧ g.timestamp = gts ∧ g.data = genesis_data ∧
      g.previous_hash = "0" ∧ g.nonce = 0 :=
  ⟨_, rfl, rfl, rfl, rfl, rfl, rfl⟩

/-- Initialising a non-empty store is a no-op. -/
lemma init_blockchain_nonempty (gts : String) (store : List HealthDataBlock)
    (h : store ≠ []) : initialize_blockchain sha256 gts store = store := by
  simp [initialize_blockchain, List.length_eq_zero, h]

/-- Verification succeeds iff the loop over the sorted documents succeeds. -/
lemma verify_ok_iff (docs : List HealthDataBlock) :
    verify_chain_integrity sha256 (.ok docs) = true ↔
      verifyLoop sha256 (sortByIndex docs) = .ok true := by
  simp only [verify_chain_integrity]
  cases hv : verifyLoop sha256 (sortByIndex docs) with
  | error e => simp
  | ok b => cases b <;> simp

/-- Verification reports `false` whenever the loop fails or raises. -/
lemma verify_false_of_bad (docs : List HealthDataBlock)
    (h : verifyLoop sha256 (sortByIndex docs) = .ok false ∨
      verifyLoop sha256 (sortByIndex docs) = .error ()) :
    verify_chain_integrity sha256 (.ok docs) = false := by
  simp only [verify_chain_integrity]
  rcases h with h | h <;> rw [h]

/-- The storage sort leaves an already index-sorted list unchanged. -/
lemma sortByIndex_eq_self : ∀ l : List HealthDataBlock,
    sortedByIndex l = true → sortByIndex l = l
  | [], _ => rfl
  | [_], _ => rfl
  | a :: b :: t, h => by
    have hs : a.index ≤ b.index ∧ sortedByIndex (b :: t) = true := by
      simpa [sortedByIndex] using h
    have ih := sortByIndex_eq_self (b :: t) hs.2
    show sortIns a (sortByIndex (b :: t)) = a :: b :: t
    rw [ih]
    simp [sortIns, hs.1]

/-- Being index-sorted only depends on the indices. -/
lemma sortedByIndex_congr : ∀ l l' : List HealthDataBlock,
    l.map (fun b => b.index) = l'.map (fun b => b.index) →
    sortedByIndex l = sortedByIndex l'
  | [], [], _ => rfl
  | [], _ :: _, h => by simp at h
  | _ :: _, [], h => by simp at h
  | [_], [_], _ => rfl
  | [_], _ :: _ :: _, h => by simp at h
  | _ :: _ :: _, [_], h => by simp at h
  | a :: b :: t, a' :: b' :: t', h => by
    simp only [List.map_cons, List.cons.injEq] at h
    obtain ⟨h1, h2, h3⟩ := h
    have ih := sortedByIndex_congr (b :: t) (b' :: t')
      (by simp only [List.map_cons, List.cons.injEq]; exact ⟨h2, h3⟩)
    simp [sortedByIndex, h1, h2, ih]

/-- Unpack one passing step of the verification loop. -/
lemma verifyLoop_ok_cons {a b : HealthDataBlock} {t : List HealthDataBlock}
    (h : verifyLoop sha256 (a :: b :: t) = .ok true) :
    recompute_hash sha256 b = some b.hash ∧ b.previous_hash = a.hash ∧
      verifyLoop sha256 (b :: t) = .ok true := by
  cases hr : recompute_hash sha256 b with
  | none => simp [verifyLoop, hr] at h
  | some hh =>
    simp only [verifyLoop, hr] at h
    by_cases h1 : hh = b.hash
    · rw [if_pos h1] at h
      by_cases h2 : b.previous_hash = a.hash
      · rw [if_pos h2] at h
        exact ⟨by rw [← h1], h2, h⟩
      · rw [if_neg h2] at h; simp at h
    · rw [if_neg h1] at h; simp at h

/-- A passing loop passes on every suffix starting anywhere in the list. -/
lemma verifyLoop_suffix : ∀ (u : List HealthDataBlock) (v : HealthDataBlock)
    (w : List HealthDataBlock),
    verifyLoop sha256 (u ++ v :: w) = .ok true →
    verifyLoop sha256 (v :: w) = .ok true
  | [], _, _, h => h
  | [_], _, _, h => (verifyLoop_ok_cons sha256 h).2.2
  | _ :: b :: u, v, w, h =>
    verifyLoop_suffix (b :: u) v w (verifyLoop_ok_cons sha256 h).2.2

/-- The loop reads the first document only through its stored hash. -/
lemma verifyLoop_congr_head {x x' : HealthDataBlock} (hx : x.hash = x'.hash) :
    ∀ l : List HealthDataBlock,
      verifyLoop sha256 (x :: l) = verifyLoop sha256 (x' :: l)
  | [] => rfl
  | _ :: _ => by simp only [verifyLoop, hx]

/-- If a tail starting at `c` fails (or raises), the loop on the whole list
fails (or raises), provided the prefix up to `c` passed for some original
tail. -/
lemma verifyLoop_extend : ∀ (u : List HealthDataBlock) (c : HealthDataBlock)
    (tl tl' : List HealthDataBlock),
    verifyLoop sha256 (u ++ c :: tl) = .ok true →
    (verifyLoop sha256 (c :: tl') = .ok false ∨
      verifyLoop sha256 (c :: tl') = .error ()) →
    verifyLoop sha256 (u ++ c :: tl') = .ok false ∨
      verifyLoop sha256 (u ++ c :: tl') = .error ()
  | [], _, _, _, _, hbad => hbad
  | [a], c, tl, tl', hok, hbad => by
    obtain ⟨hr, hp, _⟩ := verifyLoop_ok_cons sha256 (a := a) (b := c) hok
    have heq : verifyLoop sha256 (a :: c :: tl') = verifyLoop sha256 (c :: tl') := by
      simp [verifyLoop, hr, hp]
    show verifyLoop sha256 (a :: c :: tl') = .ok false ∨
      verifyLoop sha256 (a :: c :: tl') = .error ()
    rw [heq]
    exact hbad
  | a :: b :: u, c, tl, tl', hok, hbad => by
    obtain ⟨hr, hp, hrest⟩ := verifyLoop_ok_cons sha256 (a := a) (b := b) hok
    have ih := verifyLoop_extend (b :: u) c tl tl' hrest hbad
    have heq : verifyLoop sha256 (a :: b :: (u ++ c :: tl')) =
        verifyLoop sha256 (b :: (u ++ c :: tl')) := by
      simp [verifyLoop, hr, hp]
    show verifyLoop sha256 (a :: b :: (u ++ c :: tl')) = .ok false ∨
      verifyLoop sha256 (a :: b :: (u ++ c :: tl')) = .error ()
    rw [heq]
    exact ih

/-- The fields a freshly constructed block carries. -/
lemma mkHealthDataBlock_spec {i : Nat} {ts : String} {data : Payload}
    {prev : String} {b : HealthDataBlock}
    (h : mkHealthDataBlock sha256 i ts data prev = some b) :
    b.index = i ∧ b.timestamp = ts ∧ b.data = data ∧ b.previous_hash = prev ∧
      b.nonce = 0 ∧ calculate_hash sha256 i ts data prev 0 = some b.hash := by
  simp only [mkHealthDataBlock] at h
  cases hc : calculate_hash sha256 i ts data prev 0 with
  | none => rw [hc] at h; simp at h
  | some ch =>
    rw [hc] at h
    simp only [Option.map_some', Option.some.injEq] at h
    rw [← h]
    exact ⟨rfl, rfl, rfl, rfl, rfl, rfl⟩

/-- Whether a block's fields hash at all depends only on the payload, never
on the nonce. -/
lemma calculate_hash_some_any_nonce {i : Nat} {ts : String} {data : Payload}
    {prev : String} {n : Nat} {h : String}
    (hc : calculate_hash sha256 i ts data prev n = some h) (m : Nat) :
    ∃ h2, calculate_hash sha256 i ts data prev m = some h2 := by
  simp only [calculate_hash, block_string] at hc ⊢
  cases hd : dumps data with
  | none => rw [hd] at hc; simp at hc
  | some ds => exact ⟨_, rfl⟩

/-- What a successful run of the mining loop guarantees: the target is met,
the stored hash is the hash of the final fields, everything except nonce and
hash is untouched, and the nonce never decreases. -/
lemma mine_block_spec (d : Nat) : ∀ (fuel : Nat) (b b' : HealthDataBlock),
    calculate_hash sha256 b.index b.timestamp b.data b.previous_hash b.nonce =
      some b.hash →
    mine_block sha256 d fuel b = some b' →
    targetOk b'.hash d = true ∧
      calculate_hash sha256 b'.index b'.timestamp b'.data b'.previous_hash
        b'.nonce = some b'.hash ∧
      b'.index = b.index ∧ b'.timestamp = b.timestamp ∧ b'.data = b.data ∧
      b'.previous_hash = b.previous_hash ∧ b.nonce ≤ b'.nonce
  | 0, b, b', hinv, hm => by
    by_cases ht : targetOk b.hash d = true
    · simp only [mine_block, ht, if_true, Option.some.injEq] at hm
      rw [← hm]
      exact ⟨ht, hinv, rfl, rfl, rfl, rfl, Nat.le_refl _⟩
    · simp [mine_block, ht] at hm
  | fuel + 1, b, b', hinv, hm => by
    by_cases ht : targetOk b.hash d = true
    · simp only [mine_block, ht, if_true, Option.some.injEq] at hm
      rw [← hm]
      exact ⟨ht, hinv, rfl, rfl, rfl, rfl, Nat.le_refl _⟩
    · simp only [mine_block, ht, if_false, Bool.false_eq_true] at hm
      cases hc : calculate_hash sha256 b.index b.timestamp b.data
          b.previous_hash (b.nonce + 1) with
      | none => rw [hc] at hm; simp at hm
      | some h2 =>
        rw [hc] at hm
        simp only [] at hm
        have ih := mine_block_spec d fuel
          { b with nonce := b.nonce + 1, hash := h2 } b' (by simpa using hc) hm
        obtain ⟨i1, i2, i3, i4, i5, i6, i7⟩ := ih
        exact ⟨i1, i2, i3, i4, i5, i6,
          Nat.le_trans (Nat.le_succ _) (by simpa using i7)⟩

/-- If some nonce at or above the current one meets the target, the mining
loop reaches it: `k` steps of fuel suffice when the solution is `k` past the
current nonce. -/
lemma mine_reaches (d : Nat) : ∀ (k : Nat) (b : HealthDataBlock),
    calculate_hash sha256 b.index b.timestamp b.data b.previous_hash b.nonce =
      some b.hash →
    (∃ h2, calculate_hash sha256 b.index b.timestamp b.data b.previous_hash
        (b.nonce + k) = some h2 ∧ targetOk h2 d = true) →
    ∃ b', mine_block sha256 d k b = some b'
  | 0, b, hinv, hsol => by
    obtain ⟨h2, hh2, ht2⟩ := hsol
    rw [Nat.add_zero, hinv] at hh2
    have hb : h2 = b.hash := (Option.some.injEq _ _ ▸ hh2).symm
    exact ⟨b, by simp [mine_block, hb ▸ ht2]⟩
  | k + 1, b, hinv, hsol => by
    obtain ⟨h2, hh2, ht2⟩ := hsol
    by_cases ht : targetOk b.hash d = true
    · exact ⟨b, by simp [mine_block, ht]⟩
    · obtain ⟨h1, hh1⟩ := calculate_hash_some_any_nonce sha256 hinv (b.nonce + 1)
      have hsol' : ∃ h3, calculate_hash sha256 b.index b.timestamp b.data
          b.previous_hash (b.nonce + 1 + k) = some h3 ∧ targetOk h3 d = true := by
        refine ⟨h2, ?_, ht2⟩
        have harith : b.nonce + 1 + k = b.nonce + (k + 1) := by omega
        rw [harith]
        exact hh2
      obtain ⟨b', hb'⟩ := mine_reaches d k
        { b with nonce := b.nonce + 1, hash := h1 } (by simpa using hh1)
        (by simpa using hsol')
      exact ⟨b', by simp [mine_block, ht, hh1, hb']⟩

/-- A non-empty store always has a latest block. -/
lemma get_latest_block_cons (d : HealthDataBlock) (t : List HealthDataBlock) :
    ∃ m, get_latest_block (d :: t) = some m := by
  cases hgt : get_latest_block t with
  | none => exact ⟨d, by simp [get_latest_block, hgt]⟩
  | some m =>
    exact ⟨if d.index < m.index then m else d, by simp [get_latest_block, hgt]⟩

/-- On a store whose indices run `base, base+1, ...` in list order, the
latest block is the last element. -/
lemma get_latest_block_arith : ∀ (l : List HealthDataBlock) (base : Nat),
    l ≠ [] →
    (∀ i, i < l.length → (l.getD i dummyBlock).index = base + i) →
    get_latest_block l = some (l.getD (l.length - 1) dummyBlock)
  | [], _, hne, _ => absurd rfl hne
  | [x], _, _, _ => by simp [get_latest_block]
  | x :: y :: t, base, _, hidx => by
    have hidx' : ∀ i, i < (y :: t).length →
        ((y :: t).getD i dummyBlock).index = (base + 1) + i := by
      intro i hi
      have h1 := hidx (i + 1) (by simpa using Nat.succ_lt_succ hi)
      have harith : base + (i + 1) = base + 1 + i := by omega
      simpa [harith] using h1
    have ih := get_latest_block_arith (y :: t) (base + 1) (by simp) hidx'
    have hx : x.index = base := by simpa using hidx 0 (by simp)
    have hmlt : ((y :: t).getD ((y :: t).length - 1) dummyBlock).index =
        (base + 1) + ((y :: t).length - 1) :=
      hidx' _ (by simp)
    have hlt : x.index <
        ((y :: t).getD ((y :: t).length - 1) dummyBlock).index := by
      rw [hx, hmlt]; omega
    show (match get_latest_block (y :: t) with
      | none => some x
      | some m => some (if x.index < m.index then m else x)) =
      some ((x :: y :: t).getD ((x :: y :: t).length - 1) dummyBlock)
    rw [ih]
    show some (if x.index < ((y :: t).getD ((y :: t).length - 1) dummyBlock).index
        then (y :: t).getD ((y :: t).length - 1) dummyBlock else x) =
      some ((x :: y :: t).getD ((x :: y :: t).length - 1) dummyBlock)
    rw [if_pos hlt]
    congr 1

/-- What a successful `add_transaction` does to the store when a latest block
exists: exactly one new block is appended, carrying the successor index, the
latest block's hash as its link, the supplied payload, and the returned hash
is the new block's. -/
lemma add_transaction_spec {fuel : Nat} {gts now : String} {txd : Payload}
    {store store2 : List HealthDataBlock} {L : HealthDataBlock} {h : String}
    (hL : get_latest_block store = some L)
    (ha : add_transaction sha256 fuel gts now txd store = some (h, store2)) :
    ∃ nb : HealthDataBlock, store2 = store ++ [nb] ∧ nb.index = L.index + 1 ∧
      nb.previous_hash = L.hash ∧ nb.timestamp = now ∧ nb.data = txd ∧
      h = nb.hash := by
  simp only [add_transaction, hL] at ha
  cases hmk : mkHealthDataBlock sha256 (L.index + 1) now txd L.hash with
  | none => rw [hmk] at ha; simp at ha
  | some b =>
    rw [hmk] at ha
    simp only [] at ha
    obtain ⟨m1, m2, m3, m4, m5, m6⟩ := mkHealthDataBlock_spec sha256 hmk
    cases hmine : mine_block sha256 difficulty fuel b with
    | none => rw [hmine] at ha; simp at ha
    | some b2 =>
      rw [hmine] at ha
      simp only [Option.some.injEq, Prod.mk.injEq] at ha
      obtain ⟨hh, hs⟩ := ha
      have hinv : calculate_hash sha256 b.index b.timestamp b.data
          b.previous_hash b.nonce = some b.hash := by
        rw [m1, m2, m3, m4, m5]; exact m6
      obtain ⟨-, -, p1, p2, p3, p4, -⟩ :=
        mine_block_spec sha256 difficulty fuel b b2 hinv hmine
      exact ⟨b2, hs.symm, by rw [p1, m1], by rw [p4, m4], by rw [p2, m2],
        by rw [p3, m3], hh.symm⟩

/-- The structural invariant of every chain built through the ledger API:
non-empty, the `i`-th stored block has index `i`, and every non-initial block
links to its predecessor's stored hash. -/
lemma built_spec {store : List HealthDataBlock} (hb : Built sha256 store) :
    store ≠ [] ∧
      (∀ i, i < store.length → (store.getD i dummyBlock).index = i) ∧
      (∀ i, i + 1 < store.length →
        (store.getD (i + 1) dummyBlock).previous_hash =
          (store.getD i dummyBlock).hash) := by
  induction hb with
  | start gts =>
    obtain ⟨g, hg, hgi, -, -, -, -⟩ := init_blockchain_empty sha256 gts
    rw [hg]
    refine ⟨by simp, ?_, ?_⟩
    · intro i hi
      have : i = 0 := by simpa using hi
      subst this
      simpa using hgi
    · intro i hi
      simp at hi
  | step fuel gts now txd hbuilt ha ih =>
    rename_i s s2 hsh
    obtain ⟨hne, hidx, hlink⟩ := ih
    have hbase : get_latest_block s = some (s.getD (s.length - 1) dummyBlock) :=
      get_latest_block_arith s 0 hne (by simpa using hidx)
    obtain ⟨nb, hs2, hni, hnp, -, -, -⟩ := add_transaction_spec sha256 hbase ha
    subst hs2
    have hlen : 0 < s.length := List.length_pos.2 hne
    have hlast : (s.getD (s.length - 1) dummyBlock).index = s.length - 1 :=
      hidx _ (by omega)
    refine ⟨by simp, ?_, ?_⟩
    · intro i hi
      simp only [List.length_append, List.length_cons, List.length_nil] at hi
      rcases Nat.lt_or_ge i s.length with hlt | hge
      · rw [List.getD_append _ _ _ _ hlt]
        exact hidx i hlt
      · have hEq : i = s.length := by omega
        subst hEq
        rw [List.getD_append_right _ _ _ _ (Nat.le_refl _)]
        simp only [Nat.sub_self, List.getD_cons_zero]
        rw [hni, hlast]
        omega
    · intro i hi
      simp only [List.length_append, List.length_cons, List.length_nil] at hi
      rcases Nat.lt_or_ge (i + 1) s.length with hlt | hge
      · rw [List.getD_append _ _ _ _ hlt, List.getD_append _ _ _ _ (by omega)]
        exact hlink i hlt
      · have hEq : i + 1 = s.length := by omega
        rw [hEq, List.getD_append_right _ _ _ _ (Nat.le_refl _)]
        simp only [Nat.sub_self, List.getD_cons_zero]
        rw [List.getD_append _ _ _ _ (show i < s.length by omega)]
        rw [hnp]
        have hieq : i = s.length - 1 := by omega
        rw [hieq]

end HealthLedger

namespace HealthLedger

/-! ## Claim theorems -/

set_option maxRecDepth 40000 in
/-- C1 (counterexample): the claim is false at position 0. `cstore2` is a
stored chain that `verify_chain_integrity` accepts; replacing block 0's
`data` field by a different payload while keeping its stored `hash` unchanged
(`cstore2bad`) still verifies as true, because the loop never recomputes the
hash of the block at position 0. -/
theorem genesis_tamper_undetected :
    verify_chain_integrity testHash (.ok cstore2) = true ∧
      cstore2bad.length = 2 ∧
      g0bad.data ≠ g0.data ∧ g0bad.hash = g0.hash ∧
      g0bad.index = g0.index ∧ g0bad.nonce = g0.nonce ∧
      g0bad.previous_hash = g0.previous_hash ∧
      cstore2bad = cstore2.set 0 g0bad ∧
      verify_chain_integrity testHash (.ok cstore2bad) = true := by
  refine ⟨by decide, by decide, by decide, by decide, by decide, by decide,
    by decide, rfl, by decide⟩

/-- C1 (amended): tamper detection holds at every position after the first.
For any accepted chain written as `xs ++ c :: d :: suf` (so the tampered
block `d` sits at a position `k ≥ 1`), replacing `d` by `d'` that keeps
`index`, `timestamp` and the stored `hash` but changes `data`, `nonce` or
`previous_hash` makes `verify_chain_integrity` return `false`, provided the
recomputed hash of the tampered fields differs from the stored hash — which
is exactly absence of a digest collision, and is automatic when
`previous_hash` is what changed, via the linkage check. -/
theorem tamper_detected_after_first (sha256 : String → String)
    (xs : List HealthDataBlock) (c d d' : HealthDataBlock)
    (suf : List HealthDataBlock)
    (hsort : sortedByIndex (xs ++ c :: d :: suf) = true)
    (hacc : verify_chain_integrity sha256 (.ok (xs ++ c :: d :: suf)) = true)
    (hidx : d'.index = d.index) (hts : d'.timestamp = d.timestamp)
    (hhash : d'.hash = d.hash)
    (hchg : d'.data ≠ d.data ∨ d'.nonce ≠ d.nonce ∨
      d'.previous_hash ≠ d.previous_hash)
    (hbad : recompute_hash sha256 d' ≠ some d.hash ∨
      d'.previous_hash ≠ d.previous_hash) :
    verify_chain_integrity sha256 (.ok (xs ++ c :: d' :: suf)) = false := by
  have hsort' : sortedByIndex (xs ++ c :: d' :: suf) = true := by
    rw [sortedByIndex_congr (xs ++ c :: d' :: suf) (xs ++ c :: d :: suf)
      (by simp [hidx])]
    exact hsort
  have hloop : verifyLoop sha256 (xs ++ c :: d :: suf) = .ok true := by
    have hv := (verify_ok_iff sha256 (xs ++ c :: d :: suf)).1 hacc
    rwa [sortByIndex_eq_self _ hsort] at hv
  have hsfx := verifyLoop_suffix sha256 xs c (d :: suf) hloop
  obtain ⟨hr, hp, -⟩ := verifyLoop_ok_cons sha256 hsfx
  have hbadpair : verifyLoop sha256 (c :: d' :: suf) = .ok false ∨
      verifyLoop sha256 (c :: d' :: suf) = .error () := by
    cases hr' : recompute_hash sha256 d' with
    | none => right; simp [verifyLoop, hr']
    | some h2 =>
      left
      rcases hbad with hno | hno
      · have hne : ¬ h2 = d'.hash := fun he2 => hno (by rw [hr', he2, hhash])
        simp [verifyLoop, hr', hne]
      · by_cases he : h2 = d'.hash
        · have hplink : ¬ d'.previous_hash = c.hash := by
            rw [← hp]; exact hno
          simp [verifyLoop, hr', he, hplink]
        · simp [verifyLoop, hr', he]
  have hbad2 := verifyLoop_extend sha256 xs c (d :: suf) (d' :: suf) hloop hbadpair
  apply verify_false_of_bad
  rw [sortByIndex_eq_self _ hsort']
  exact hbad2

/-- C2: a successful `add_transaction` on a store with latest block `L`
appends exactly one block with index `L.index + 1` and
`previous_hash = L.hash`, returning that block's hash; consequently every
chain built by successive appends satisfies
`block[i].previous_hash = block[i-1].hash` for all interior positions. -/
theorem add_transaction_links_to_latest (sha256 : String → String) :
    (∀ (fuel : Nat) (gts now : String) (txd : Payload)
       (store store2 : List HealthDataBlock) (L : HealthDataBlock) (h : String),
       get_latest_block store = some L →
       add_transaction sha256 fuel gts now txd store = some (h, store2) →
       ∃ nb : HealthDataBlock, store2 = store ++ [nb] ∧
         nb.index = L.index + 1 ∧ nb.previous_hash = L.hash ∧ h = nb.hash) ∧
    (∀ store : List HealthDataBlock, Built sha256 store →
       ∀ i : Nat, i + 1 < store.length →
         (store.getD (i + 1) dummyBlock).previous_hash =
           (store.getD i dummyBlock).hash) := by
  constructor
  · intro fuel gts now txd store store2 L h hL ha
    obtain ⟨nb, h1, h2, h3, -, -, h6⟩ := add_transaction_spec sha256 hL ha
    exact ⟨nb, h1, h2, h3, h6⟩
  · intro store hb i hi
    exact (built_spec sha256 hb).2.2 i hi

set_option maxRecDepth 40000 in
/-- C3 (counterexample): the genesis payload is not tagged with an
`action_type` key at all — its tag key is `type` — so the claim's payload
shape fails on the store produced by initialising an empty collection. -/
theorem genesis_payload_missing_action_type :
    (initialize_blockchain testHash "T0" []).length = 1 ∧
      ((initialize_blockchain testHash "T0" []).getD 0
          dummyBlock).data.lookup "action_type" = none ∧
      ((initialize_blockchain testHash "T0" []).getD 0
          dummyBlock).data.lookup "type" = some (.str "genesis") := by
  refine ⟨by decide, by decide, by decide⟩

/-- C3 (amended): initialising an empty store persists exactly one genesis
block, with index 0, previous hash `"0"`, and a payload tagged `type`
(not `action_type`) with value `"genesis"`, carrying the fixed message and
`created_by = "system"`. -/
theorem genesis_block_spec (sha256 : String → String) (gts : String) :
    (initialize_blockchain sha256 gts []).length = 1 ∧
      ((initialize_blockchain sha256 gts []).getD 0 dummyBlock).index = 0 ∧
      ((initialize_blockchain sha256 gts []).getD 0
        dummyBlock).previous_hash = "0" ∧
      ((initialize_blockchain sha256 gts []).getD 0
        dummyBlock).data.lookup "type" = some (.str "genesis") ∧
      ((initialize_blockchain sha256 gts []).getD 0
        dummyBlock).data.lookup "message" =
          some (.str "Smart Health Consulting Services - Genesis Block") ∧
      ((initialize_blockchain sha256 gts []).getD 0
        dummyBlock).data.lookup "created_by" = some (.str "system") ∧
      ((initialize_blockchain sha256 gts []).getD 0
        dummyBlock).data.lookup "action_type" = none := by
  obtain ⟨g, hg, hgi, -, hgd, hgp, -⟩ := init_blockchain_empty sha256 gts
  rw [hg]
  simp only [List.length_cons, List.length_nil, List.getD_cons_zero]
  refine ⟨trivial, hgi, hgp, ?_, ?_, ?_, ?_⟩ <;> rw [hgd] <;> rfl

/-- C4: whenever the mining loop returns, the resulting block's hash starts
with `difficulty` zero characters and equals the hash of the block's final
fields; all fields other than nonce and hash are unchanged. Stated under the
constructor invariant that the incoming block's stored hash is the hash of
its fields. -/
theorem mine_block_postcondition (sha256 : String → String)
    (d fuel : Nat) (b b2 : HealthDataBlock)
    (hd : d = 1 ∨ d = 2 ∨ d = 3)
    (hinv : calculate_hash sha256 b.index b.timestamp b.data b.previous_hash
      b.nonce = some b.hash)
    (hm : mine_block sha256 d fuel b = some b2) :
    targetOk b2.hash d = true ∧
      calculate_hash sha256 b2.index b2.timestamp b2.data b2.previous_hash
        b2.nonce = some b2.hash ∧
      b2.index = b.index ∧ b2.timestamp = b.timestamp ∧ b2.data = b.data ∧
      b2.previous_hash = b.previous_hash := by
  obtain ⟨p1, p2, p3, p4, p5, p6, -⟩ :=
    mine_block_spec sha256 d fuel b b2 hinv hm
  exact ⟨p1, p2, p3, p4, p5, p6⟩

/-- C5: `calculate_hash` is deterministic — two calls on the same five
fields agree — and computes exactly the digest of the key-sorted JSON
serialisation of `{data, index, nonce, previous_hash, timestamp}` (keys in
sorted order). -/
theorem calculate_hash_deterministic_canonical (sha256 : String → String)
    (i : Nat) (ts : String) (data : Payload) (prev : String) (nonce : Nat)
    (ds : String) (hds : dumps data = some ds) :
    calculate_hash sha256 i ts data prev nonce =
      calculate_hash sha256 i ts data prev nonce ∧
    calculate_hash sha256 i ts data prev nonce =
      some (sha256 ("\x7b\"data\": " ++ ds
        ++ ", \"index\": " ++ toString i
        ++ ", \"nonce\": " ++ toString nonce
        ++ ", \"previous_hash\": " ++ jstr prev
        ++ ", \"timestamp\": " ++ jstr ts ++ "\x7d")) := by
  refine ⟨rfl, ?_⟩
  simp [calculate_hash, block_string, hds]

/-- C6: `initialize_blockchain` is a no-op on a non-empty store, so running
it twice from empty is the same as running it once. -/
theorem init_blockchain_idempotent (sha256 : String → String) :
    (∀ (gts : String) (store : List HealthDataBlock), store ≠ [] →
       initialize_blockchain sha256 gts store = store) ∧
    (∀ gts gts2 : String,
       initialize_blockchain sha256 gts2 (initialize_blockchain sha256 gts []) =
         initialize_blockchain sha256 gts []) := by
  constructor
  · exact fun gts store h => init_blockchain_nonempty sha256 gts store h
  · intro gts gts2
    obtain ⟨g, hg, -, -, -, -, -⟩ := init_blockchain_empty sha256 gts
    rw [hg]
    exact init_blockchain_nonempty sha256 gts2 [g] (by simp)

/-- C7 (counterexample): the claim fails when the plaintext coincides with
another submitted field. Calling `log_ai_interaction` with
`patient_id = "hello"` and `input_data = "hello"` puts the plaintext
`"hello"` into the payload (as the `patient_id` value), even though the
input is stored only as a digest. -/
theorem ai_plaintext_can_occur :
    (log_ai_interaction_payload testHash "hello" "chat" "model1" "hello"
        "world" none "T").lookup "input_data_hash" =
      some (.str (testHash "hello")) ∧
    JVal.str "hello" ∈
      (log_ai_interaction_payload testHash "hello" "chat" "model1" "hello"
        "world" none "T").map Prod.snd := by
  refine ⟨by decide, by decide⟩

/-- C7 (amended): `log_ai_interaction` submits a payload whose
`input_data_hash` and `output_data_hash` are the digests of the input and
output text, and the plaintexts occur nowhere among the payload's values
provided they differ from the other submitted field values, from the tag
`"ai_interaction"`, from the payload timestamp, and from the two digests;
the payload is submitted unchanged through `add_transaction`. -/
theorem log_ai_interaction_hashes_only (sha256 : String → String)
    (pid itype model ind outd : String) (cs : Option PyFloat) (pts : String)
    (hi1 : ind ≠ pid) (hi2 : ind ≠ itype) (hi3 : ind ≠ model)
    (hi4 : ind ≠ "ai_interaction") (hi5 : ind ≠ pts)
    (hi6 : ind ≠ sha256 ind) (hi7 : ind ≠ sha256 outd)
    (ho1 : outd ≠ pid) (ho2 : outd ≠ itype) (ho3 : outd ≠ model)
    (ho4 : outd ≠ "ai_interaction") (ho5 : outd ≠ pts)
    (ho6 : outd ≠ sha256 ind) (ho7 : outd ≠ sha256 outd) :
    (log_ai_interaction_payload sha256 pid itype model ind outd cs
        pts).lookup "input_data_hash" = some (.str (sha256 ind)) ∧
    (log_ai_interaction_payload sha256 pid itype model ind outd cs
        pts).lookup "output_data_hash" = some (.str (sha256 outd)) ∧
    (∀ kv ∈ log_ai_interaction_payload sha256 pid itype model ind outd cs pts,
       kv.2 ≠ JVal.str ind ∧ kv.2 ≠ JVal.str outd) ∧
    (∀ (fuel : Nat) (gts now : String) (store : List HealthDataBlock),
       log_ai_interaction sha256 fuel gts now pid itype model ind outd cs pts
           store =
         add_transaction sha256 fuel gts now
           (log_ai_interaction_payload sha256 pid itype model ind outd cs pts)
           store) := by
  refine ⟨rfl, rfl, ?_, fun fuel gts now store => rfl⟩
  intro kv hkv
  simp only [log_ai_interaction_payload, List.mem_cons,
    List.not_mem_nil, or_false] at hkv
  rcases hkv with rfl | rfl | rfl | rfl | rfl | rfl | rfl | rfl
  · exact ⟨fun h => hi4 (JVal.str.inj h).symm, fun h => ho4 (JVal.str.inj h).symm⟩
  · exact ⟨fun h => hi1 (JVal.str.inj h).symm, fun h => ho1 (JVal.str.inj h).symm⟩
  · exact ⟨fun h => hi2 (JVal.str.inj h).symm, fun h => ho2 (JVal.str.inj h).symm⟩
  · exact ⟨fun h => hi3 (JVal.str.inj h).symm, fun h => ho3 (JVal.str.inj h).symm⟩
  · exact ⟨fun h => hi6 (JVal.str.inj h).symm, fun h => ho6 (JVal.str.inj h).symm⟩
  · exact ⟨fun h => hi7 (JVal.str.inj h).symm, fun h => ho7 (JVal.str.inj h).symm⟩
  · cases cs <;> exact ⟨fun h => (nomatch h), fun h => (nomatch h)⟩
  · exact ⟨fun h => hi5 (JVal.str.inj h).symm, fun h => ho5 (JVal.str.inj h).symm⟩

/-- C8: the mining loop terminates — with fuel to spare — as soon as any
nonce at or above the current one hashes to a target-meeting digest; the
hypothesis is exactly the existence of such a nonce, which for the real
digest function is the probabilistic guarantee the specification describes
for difficulties 1–3. -/
theorem mine_block_terminates (sha256 : String → String)
    (d : Nat) (b : HealthDataBlock) (n : Nat)
    (hd : d = 1 ∨ d = 2 ∨ d = 3)
    (hinv : calculate_hash sha256 b.index b.timestamp b.data b.previous_hash
      b.nonce = some b.hash)
    (hn : b.nonce ≤ n)
    (hsol : ∃ h2, calculate_hash sha256 b.index b.timestamp b.data
      b.previous_hash n = some h2 ∧ targetOk h2 d = true) :
    ∃ fuel b2, mine_block sha256 d fuel b = some b2 := by
  obtain ⟨h2, hh2, ht2⟩ := hsol
  obtain ⟨b2, hb2⟩ := mine_reaches sha256 d (n - b.nonce) b hinv
    ⟨h2, by rw [Nat.add_sub_cancel' hn]; exact hh2, ht2⟩
  exact ⟨n - b.nonce, b2, hb2⟩

/-- C9: `verify_chain_integrity` never recomputes the hash of the block at
position 0: any store of at most one block verifies as true whatever its
field values, and in a longer accepted chain, changing block 0's `data`,
`nonce` or `timestamp` while keeping its stored `hash` (and its `index` and
`previous_hash`) still verifies as true. -/
theorem verify_skips_first_block (sha256 : String → String) :
    (∀ store : List HealthDataBlock, store.length ≤ 1 →
       verify_chain_integrity sha256 (.ok store) = true) ∧
    (∀ (b0 b0' : HealthDataBlock) (rest : List HealthDataBlock),
       sortedByIndex (b0 :: rest) = true →
       b0'.index = b0.index → b0'.hash = b0.hash →
       b0'.previous_hash = b0.previous_hash →
       verify_chain_integrity sha256 (.ok (b0 :: rest)) = true →
       verify_chain_integrity sha256 (.ok (b0' :: rest)) = true) := by
  constructor
  · intro store hlen
    cases store with
    | nil => rfl
    | cons a t =>
      cases t with
      | nil => rfl
      | cons b t2 => simp [List.length_cons] at hlen
  · intro b0 b0' rest hs hi hh hp hv
    have hs' : sortedByIndex (b0' :: rest) = true := by
      rw [sortedByIndex_congr (b0' :: rest) (b0 :: rest) (by simp [hi])]
      exact hs
    have hloop : verifyLoop sha256 (b0 :: rest) = .ok true := by
      have h1 := (verify_ok_iff sha256 (b0 :: rest)).1 hv
      rwa [sortByIndex_eq_self _ hs] at h1
    have hloop' : verifyLoop sha256 (b0' :: rest) = .ok true := by
      rw [verifyLoop_congr_head sha256 hh rest]
      exact hloop
    rw [verify_ok_iff sha256, sortByIndex_eq_self _ hs']
    exact hloop'

/-- C10: when loading the blocks fails, or recomputing a stored block's hash
raises during the loop, `verify_chain_integrity` returns `false` instead of
propagating the exception — so `false` does not distinguish tampering from a
storage or serialisation failure. -/
theorem verify_false_on_exception (sha256 : String → String)
    (load : Except Unit (List HealthDataBlock))
    (h : load = .error () ∨ ∃ docs, load = .ok docs ∧
      verifyLoop sha256 (sortByIndex docs) = .error ()) :
    verify_chain_integrity sha256 load = false := by
  rcases h with h | ⟨docs, hd, he⟩
  · rw [h]; rfl
  · rw [hd]
    exact verify_false_of_bad sha256 docs (Or.inr he)

/-! ## Witnesses -/

set_option maxRecDepth 100000 in
/-- Witness for C1: the amended tamper-detection theorem applied to the
concrete two-block chain, tampering the payload of the block at position 1. -/
theorem tamper_detected_after_first_witness :
    b1bad.data ≠ b1.data ∧
      verify_chain_integrity testHash (.ok ([] ++ g0 :: b1bad :: [])) = false :=
  ⟨by decide,
    tamper_detected_after_first testHash [] g0 b1 b1bad []
      (by decide) (by decide) (by decide) (by decide) (by decide)
      (Or.inl (by decide)) (Or.inl (by decide))⟩

set_option maxRecDepth 100000 in
/-- Witness for C2: one concrete append on the genesis store, plus the
linkage invariant of the resulting built chain at position 1. -/
theorem add_transaction_links_to_latest_witness :
    (∃ nb : HealthDataBlock, cstore2 = cstore1 ++ [nb] ∧
       nb.index = (cstore1.getD 0 dummyBlock).index + 1 ∧
       nb.previous_hash = (cstore1.getD 0 dummyBlock).hash ∧
       chash1 = nb.hash) ∧
    (cstore2.getD 1 dummyBlock).previous_hash =
      (cstore2.getD 0 dummyBlock).hash :=
  ⟨(add_transaction_links_to_latest testHash).1 0 "T0" "T1" pay1 cstore1
      cstore2 (cstore1.getD 0 dummyBlock) chash1 (by decide) (by decide),
    (add_transaction_links_to_latest testHash).2 cstore2
      (Built.step 0 "T0" "T1" pay1 (Built.start "T0")
        (show add_transaction testHash 0 "T0" "T1" pay1 cstore1 =
          some (chash1, cstore2) by decide))
      0 (by decide)⟩

set_option maxRecDepth 100000 in
/-- Witness for C4: mining the concrete genesis block at difficulty 2
(already at target under `testHash`). -/
theorem mine_block_postcondition_witness :
    targetOk g0.hash 2 = true ∧
      calculate_hash testHash g0.index g0.timestamp g0.data g0.previous_hash
        g0.nonce = some g0.hash ∧
      g0.index = g0.index ∧ g0.timestamp = g0.timestamp ∧
      g0.data = g0.data ∧ g0.previous_hash = g0.previous_hash :=
  mine_block_postcondition testHash 2 0 g0 g0 (Or.inr (Or.inl rfl))
    (by decide) (by decide)

set_option maxRecDepth 100000 in
/-- Witness for C5: the canonical-serialisation equation at a concrete
payload whose dump is a known literal. -/
theorem calculate_hash_deterministic_canonical_witness :
    dumps pay1 = some pay1dump ∧
      (calculate_hash testHash 3 "TS" pay1 "prevhash" 7 =
        calculate_hash testHash 3 "TS" pay1 "prevhash" 7 ∧
      calculate_hash testHash 3 "TS" pay1 "prevhash" 7 =
        some (testHash ("\x7b\"data\": " ++ pay1dump
          ++ ", \"index\": " ++ toString 3
          ++ ", \"nonce\": " ++ toString 7
          ++ ", \"previous_hash\": " ++ jstr "prevhash"
          ++ ", \"timestamp\": " ++ jstr "TS" ++ "\x7d"))) :=
  ⟨by decide,
    calculate_hash_deterministic_canonical testHash 3 "TS" pay1 "prevhash" 7
      pay1dump (by decide)⟩

set_option maxRecDepth 100000 in
/-- Witness for C6: initialising a concrete non-empty store is a no-op. -/
theorem init_blockchain_idempotent_witness :
    [dummyBlock] ≠ [] ∧
      initialize_blockchain testHash "T9" [dummyBlock] = [dummyBlock] :=
  ⟨by decide, (init_blockchain_idempotent testHash).1 "T9" [dummyBlock]
    (by decide)⟩

set_option maxRecDepth 100000 in
/-- Witness for C7: the amended hashing-only theorem at a concrete call with
plaintexts distinct from every other stored value. -/
theorem log_ai_interaction_hashes_only_witness :
    (log_ai_interaction_payload testHash "P2" "chat" "model1" "hello" "world"
        none "T").lookup "input_data_hash" = some (.str (testHash "hello")) ∧
    (log_ai_interaction_payload testHash "P2" "chat" "model1" "hello" "world"
        none "T").lookup "output_data_hash" = some (.str (testHash "world")) ∧
    (("patient_id", JVal.str "P2") : String × JVal).2 ≠ JVal.str "hello" := by
  have h := log_ai_interaction_hashes_only testHash "P2" "chat" "model1"
    "hello" "world" none "T" (by decide) (by decide) (by decide) (by decide)
    (by decide) (by decide) (by decide) (by decide) (by decide) (by decide)
    (by decide) (by decide) (by decide) (by decide)
  exact ⟨h.1, h.2.1, (h.2.2.1 ("patient_id", .str "P2") (by decide)).1⟩

set_option maxRecDepth 100000 in
/-- Witness for C8: the concrete genesis block already has a target-meeting
nonce, so the loop terminates. -/
theorem mine_block_terminates_witness :
    ∃ fuel b2, mine_block testHash 2 fuel g0 = some b2 :=
  mine_block_terminates testHash 2 g0 g0.nonce (Or.inr (Or.inl rfl))
    (by decide) (Nat.le_refl _) ⟨g0.hash, by decide, by decide⟩

set_option maxRecDepth 100000 in
/-- Witness for C9: a one-block store verifies, and tampering block 0's
nonce in the concrete two-block chain goes undetected. -/
theorem verify_skips_first_block_witness :
    verify_chain_integrity testHash (.ok [dummyBlock]) = true ∧
      g0c.nonce ≠ g0.nonce ∧ g0c.hash = g0.hash ∧
      verify_chain_integrity testHash (.ok (g0c :: [b1])) = true := by
  refine ⟨(verify_skips_first_block testHash).1 [dummyBlock] (by decide),
    by decide, by decide, ?_⟩
  exact (verify_skips_first_block testHash).2 g0 g0c [b1]
    (by decide) (by decide) (by decide) (by decide) (by decide)

set_option maxRecDepth 100000 in
/-- Witness for C10: a store containing a document whose payload cannot be
re-serialised makes the loop raise, and verification reports `false`. -/
theorem verify_false_on_exception_witness :
    verify_chain_integrity testHash (.ok [g0, badDoc]) = false :=
  verify_false_on_exception testHash (.ok [g0, badDoc])
    (Or.inr ⟨[g0, badDoc], rfl, rfl⟩)

end HealthLedger
